import Mathlib

/-!
Verification of the catalog-integrity engine of halo-halo-patterns.

The embedded code is `scripts/patternlint.mjs` (the full engine: validate /
sanitize-scan / index / staleness commands) and `scripts/staleness.sh` (the
degraded standalone staleness auditor).  JavaScript strings are modelled as
Lean `String` (the corpus is ASCII, where UTF-16 code-unit order coincides
with code-point order), JavaScript numbers used by the similarity code as
`ℚ`, and YAML scalar values produced by gray-matter / js-yaml as the
inductive `YamlValue` below.
-/

namespace HaloProof

/-! ## JavaScript string primitives -/

/-- The characters matched by the JavaScript regex class `\s` (restricted to
the ASCII range over which the corpus ranges). -/
def isJsSpace (c : Char) : Bool :=
  c = ' ' || c = '\t' || c = '\n' || c = '\r' || c = '\x0b' || c = '\x0c'

/-- ECMAScript relational comparison of two strings (`a < b`): code-unit
lexicographic order — a proper prefix is smaller, otherwise the first
differing code unit decides. -/
def listLtChar : List Char → List Char → Bool
  | [], [] => false
  | [], _ :: _ => true
  | _ :: _, [] => false
  | x :: xs, y :: ys =>
    if x.toNat < y.toNat then true
    else if y.toNat < x.toNat then false
    else listLtChar xs ys

def jsStrLt (a b : String) : Bool := listLtChar a.data b.data

/-- JS `String.prototype.toLowerCase`, on the ASCII subset. -/
def jsToLower (s : String) : String := String.mk (s.data.map Char.toLower)

/-- Characters kept by `normalizeTitle`'s `.replace(/[^a-z0-9\s-]/g,"")`
(`patternlint.mjs` line 30): the regex removes every character that is not a
lowercase letter, digit, whitespace or hyphen. -/
def keepNorm (c : Char) : Bool :=
  ('a' ≤ c && c ≤ 'z') || ('0' ≤ c && c ≤ '9') || isJsSpace c || c = '-'

/-- `.replace(/\s+/g," ")`: each maximal run of whitespace becomes a
single space.  The flag records whether the previous character belonged
to a whitespace run whose replacement space is already emitted. -/
def collapseWsAux : Bool → List Char → List Char
  | _, [] => []
  | inRun, c :: cs =>
    if isJsSpace c then
      if inRun then collapseWsAux true cs else ' ' :: collapseWsAux true cs
    else c :: collapseWsAux false cs

def collapseWs (l : List Char) : List Char := collapseWsAux false l

/-- JS `String.prototype.trim` on a character list. -/
def jsTrimList (l : List Char) : List Char :=
  ((l.dropWhile isJsSpace).reverse.dropWhile isJsSpace).reverse

/-- `normalizeTitle` (`patternlint.mjs` line 30):
`(s||"").toLowerCase().replace(/[^a-z0-9\s-]/g,"").replace(/\s+/g," ").trim()`.
A missing title is passed as `""` by every caller (`self.title||""`). -/
def normalizeTitle (s : String) : String :=
  String.mk (jsTrimList (collapseWs ((jsToLower s).data.filter keepNorm)))

/-! ## Levenshtein distance and title ratio -/

/-- The edit-distance recurrence filled in by the dynamic program of
`levenshteinRatio` (`patternlint.mjs` lines 34-42):
`dp[i][0]=i`, `dp[0][j]=j`,
`dp[i][j]=min(dp[i-1][j]+1, dp[i][j-1]+1, dp[i-1][j-1]+cost)` with
`cost = a[i-1]===b[j-1] ? 0 : 1`; the result is `dp[m][n]`, the classic
Levenshtein distance, stated here as its standard recursion on lists. -/
def levAux (x : Char) (f : List Char → Nat) : List Char → Nat
  | [] => f [] + 1
  | y :: ys => min (f (y :: ys) + 1) (min (levAux x f ys + 1) (f ys + (if x = y then 0 else 1)))

def lev : List Char → List Char → Nat
  | [], ys => ys.length
  | x :: xs, ys => levAux x (lev xs) ys

/-- `levenshteinRatio` (`patternlint.mjs` lines 31-44): normalize both
titles; both empty → 1; exactly one empty → 0; otherwise
`1 - dist/maxLen`. -/
def levenshteinRatio (a b : String) : ℚ :=
  let a' := normalizeTitle a
  let b' := normalizeTitle b
  if a' = "" ∧ b' = "" then 1
  else if a' = "" ∨ b' = "" then 0
  else
    let dist := lev a'.data b'.data
    let maxLen := max a'.length b'.length
    if maxLen = 0 then 1 else 1 - (dist : ℚ) / (maxLen : ℚ)

/-! ## YAML values as produced by gray-matter / js-yaml

`patternlint.mjs` parses front matter with `matter(raw)` (gray-matter),
which feeds the header block to js-yaml's safe schema.  The scalar values
relevant to the engine are strings, booleans, integers, YAML 1.1
timestamps (which js-yaml turns into JavaScript `Date` objects — its
date-only regex is `^(\d\d\d\d)-(\d\d)-(\d\d)$`, with no range check),
and block lists. -/

inductive YamlValue : Type where
  | vStr (s : String)
  | vBool (b : Bool)
  | vInt (n : Int)
  | vDate (y m d : Nat)
  | vList (xs : List YamlValue)

open YamlValue

/-- A parsed front-matter header (`matter(raw).data`), as a key/value list;
`jsGet data k` is the JavaScript property access `data[k]`, `none` standing
for `undefined`. -/
def FM : Type := List (String × YamlValue)

def jsGet (data : FM) (k : String) : Option YamlValue :=
  (List.find? (fun p => p.1 = k) data).map (fun p => p.2)

/-- JavaScript truthiness of a front-matter value: `""`, `false` and `0`
are falsy; `Date` objects and arrays (even empty ones) are truthy. -/
def truthy : YamlValue → Bool
  | vStr s => s ≠ ""
  | vBool b => b
  | vInt n => n ≠ 0
  | vDate _ _ _ => true
  | vList _ => true

/-- Truthiness of `data[k]`: `undefined` is falsy. -/
def truthyOpt : Option YamlValue → Bool
  | none => false
  | some v => truthy v

def isEmptyList : Option YamlValue → Bool
  | some (vList []) => true
  | _ => false

/-! ## A
gray-matter front-matter model (the documented flat subset)

The embedding below models `matter(raw)` on the documented common-subset
grammar (spec §4.1): a header delimited by `---` lines, flat
`key: value` scalars and one-level block lists.  Scalar resolution keeps
the js-yaml behaviours the engine is sensitive to: quote stripping and
the YAML 1.1 date regex (unquoted `YYYY-MM-DD` becomes a `Date`). -/

def splitOnChar (c : Char) : List Char → List (List Char)
  | [] => [[]]
  | x :: xs =>
    let rest := splitOnChar c xs
    if x = c then [] :: rest
    else
      match rest with
      | [] => [[x]]
      | r :: rs => (x :: r) :: rs

def lineSplit (s : String) : List String :=
  (splitOnChar '\n' s.data).map String.mk

def isDigitCh (c : Char) : Bool := '0' ≤ c && c ≤ '9'

def digitsToNat (l : List Char) : Nat :=
  l.foldl (fun acc c => acc * 10 + (c.toNat - 48)) 0

/-- js-yaml scalar resolution on the subset: strip matching quotes
(quoted scalars are always strings), otherwise apply the YAML 1.1
date-only regex `^(\d{4})-(\d{2})-(\d{2})$` (no range validation — js-yaml
hands the raw fields to `Date.UTC`), and fall back to a plain string.
Booleans/ints are not needed by any embedded check and plain scalars other
than timestamps are kept as strings. -/
def yamlResolve (v : String) : YamlValue :=
  match v.data with
  | '"' :: rest =>
    if rest ≠ [] ∧ rest.getLast? = some '"' then vStr (String.mk (rest.dropLast))
    else vStr v
  | '\'' :: rest =>
    if rest ≠ [] ∧ rest.getLast? = some '\'' then vStr (String.mk (rest.dropLast))
    else vStr v
  | [y1, y2, y3, y4, '-', m1, m2, '-', d1, d2] =>
    if [y1, y2, y3, y4, m1, m2, d1, d2].all isDigitCh then
      vDate (digitsToNat [y1, y2, y3, y4]) (digitsToNat [m1, m2]) (digitsToNat [d1, d2])
    else vStr v
  | _ => vStr v

def yamlTrim (s : String) : String := String.mk (jsTrimList s.data)

/-- Split `raw` into header lines and body, per gray-matter's sentinel
handling: a first line that is exactly `---` opens the header, the next
`---` line closes it; a file that does not open with the sentinel has an
empty header and is all body.  Files without a closing sentinel are
outside the modelled subset and are treated as all body. -/
def matterSplit (raw : String) : List String × String :=
  match lineSplit raw with
  | "---" :: rest =>
    let fmLines := rest.takeWhile (fun l => l ≠ "---")
    match rest.dropWhile (fun l => l ≠ "---") with
    | _ :: bodyLines => (fmLines, String.intercalate "\n" bodyLines)
    | [] => ([], raw)
  | _ => ([], raw)

def isBlankStr (s : String) : Bool := s.data.all isJsSpace

/-- A block-list item line: optional indentation, `-`, whitespace, value. -/
def listItem? (s : String) : Option String :=
  match (s.data.dropWhile isJsSpace) with
  | '-' :: rest =>
    if rest.headD ' ' |> isJsSpace then some (String.mk (jsTrimList rest)) else none
  | _ => none

/-- A top-level `key: value` or `key:` line: the key is the text before the
first colon (not starting with whitespace or `-`), the value is the rest of
the line. -/
def keyLine? (s : String) : Option (String × String) :=
  match s.data with
  | [] => none
  | c :: _ =>
    if isJsSpace c || c = '-' then none
    else
      let key := s.data.takeWhile (fun x => x ≠ ':')
      match s.data.dropWhile (fun x => x ≠ ':') with
      | ':' :: rest =>
        if rest = [] ∨ isJsSpace (rest.headD ' ') then
          some (String.mk key, String.mk rest)
        else none
      | _ => none

def blockCont (s : String) : Bool := isBlankStr s || (listItem? s).isSome

/-- Parse the header lines into key/value pairs: scalar lines resolve
their value; a bare `key:` line collects the following block-list items.
The fuel argument (initially the number of lines, which bounds the
recursion depth) keeps the recursion structural. -/
def parseFMAux : Nat → List String → FM
  | 0, _ => []
  | _ + 1, [] => []
  | fuel + 1, l :: rest =>
    match keyLine? l with
    | none => parseFMAux fuel rest
    | some (k, v) =>
      if isBlankStr v then
        let items := (rest.takeWhile blockCont).filterMap listItem?
        (k, vList (items.map yamlResolve)) :: parseFMAux fuel (rest.dropWhile blockCont)
      else
        (k, yamlResolve (yamlTrim v)) :: parseFMAux fuel rest

def parseFMLines (ls : List String) : FM := parseFMAux ls.length ls

/-- `matter(raw).data` on the modelled subset. -/
def matterParse (raw : String) : FM := parseFMLines (matterSplit raw).1

/-- `matter(raw).content` (the body). -/
def matterBody (raw : String) : String := (matterSplit raw).2

/-! ## Similarity detector (`validate` command, `patternlint.mjs` lines 92-97 and 136-150)

The `meta` pass stores `{file, id, title, domain, tags}` per record.  The
engine only ever tests these fields for truthiness, `===`-equality of
strings, `includes` on the tag array and `levenshteinRatio` on titles, so
an absent (`undefined`) id/title/domain is modelled as `""` and absent
tags as `[]` (`data.tags||[]`), which have identical behaviour in every
consuming expression. -/

structure MetaRec : Type where
  file : String
  id : String
  title : String
  domain : String
  tags : List String
deriving DecidableEq, Repr

/-- `self.domain && other.domain && self.domain===other.domain`
(line 141). -/
def sameDomain (a b : MetaRec) : Bool :=
  a.domain ≠ "" && b.domain ≠ "" && a.domain = b.domain

/-- `new Set(self.tags.filter(t=>other.tags.includes(t))).size`
(line 142): the number of distinct tags shared by the two records. -/
def tagOverlap (a b : MetaRec) : Nat :=
  ((a.tags.filter (fun t => b.tags.contains t)).dedup).length

/-- The similarity policy drawn from `rules/gatekeeper.json`
(`gate?.similarity_triggers_consolidate?...`); either threshold may be
absent, in which case `??` supplies the defaults 3 and 0.70
(lines 144-145). -/
structure GatePolicy : Type where
  min_tag_overlap : Option Nat
  or_title_levenshtein_ratio : Option ℚ

/-- The similarity trigger of line 146:
`(sameDomain && overlap>=minOverlap) || (lev>=levThresh)`. -/
def simFlag (g : GatePolicy) (a b : MetaRec) : Bool :=
  (sameDomain a b && decide (tagOverlap a b ≥ g.min_tag_overlap.getD 3))
    || decide (levenshteinRatio a.title b.title ≥ g.or_title_levenshtein_ratio.getD (70 / 100))

/-- The inner loop of lines 139-149 for one record `self`: every other meta
entry with a different file and a truthy id that triggers `simFlag` yields
one `SIMILARITY WARN self.id ~ other.id` line, in corpus order. -/
def recordSimWarns (g : GatePolicy) (meta : List MetaRec) (self : MetaRec) : List (String × String) :=
  if self.id ≠ "" then
    (meta.filter (fun o => o.file ≠ self.file && o.id ≠ "" && simFlag g self o)).map
      (fun o => (self.id, o.id))
  else []

/-- All similarity warnings of a `validate` run, in emission order.  The
source iterates the file list and recovers `self` via
`meta.find(m=>m.file===f)`; since `meta` is built by mapping over that
same file list (and `walk` yields each path once), this is the meta entry
itself, so the fold ranges over `meta` directly. -/
def simWarnings (g : GatePolicy) (meta : List MetaRec) : List (String × String) :=
  meta.foldl (fun acc self => acc ++ recordSimWarns g meta self) []

/-! ## Sanitization scanner

Two models are needed.  `validate`/`sanitize-scan` consult the scanner per
document; `SanRule` models one compiled rule as its name plus the
membership test of its regex (adequate when no rule carries a stateful
flag — see the stateful model below).  `CRule` additionally models the
JavaScript `RegExp` object state: `lastIndex`, which `test` consults and
updates exactly when the compiled flags contain `g` or `y`. -/

structure SanRule : Type where
  name : String
  test : String → Bool

/-- `scan(content, compiled)` (`patternlint.mjs` lines 49-54), stateless
form: the names of the block rules and warn rules matching the document,
in rule order. -/
def scanPure (content : String) (block warn : List SanRule) : List String × List String :=
  ((block.filter (fun r => r.test content)).map (fun r => r.name),
    (warn.filter (fun r => r.test content)).map (fun r => r.name))

/-- A rule as written in `rules/sanitization.json`: a name, a pattern and
optional flags.  The regex engine itself is not modelled: `step s i` is
the end position of the match that `RegExp.prototype.exec/test` finds in
`s` when searching from position `i`, or `none`. -/
structure SanRuleSpec : Type where
  name : String
  flags : Option String
  step : String → Nat → Option Nat

/-- A compiled rule (`new RegExp(r.regex, r.flags||"")`, line 46) with its
mutable `lastIndex`. -/
structure CRule : Type where
  name : String
  flags : String
  step : String → Nat → Option Nat
  lastIndex : Nat

def statefulFlags (f : String) : Bool := f.data.contains 'g' || f.data.contains 'y'

/-- `r.re.test(content)` with ECMAScript semantics: a global or sticky
regex starts at `lastIndex` and writes it back (match end on success, 0
on failure); otherwise the search starts at 0 and `lastIndex` is
untouched. -/
def testR (content : String) (r : CRule) : Bool × CRule :=
  if statefulFlags r.flags then
    match r.step content r.lastIndex with
    | some e => (true, { r with lastIndex := e })
    | none => (false, { r with lastIndex := 0 })
  else ((r.step content 0).isSome, r)

/-- One `for(const r of rules) if(r.re.test(content)) out.push(r.name)`
pass, threading the regex objects' state. -/
def scanRules (content : String) : List CRule → List String × List CRule
  | [] => ([], [])
  | r :: rs =>
    let (hit, r') := testR content r
    let (names, rs') := scanRules content rs
    (if hit then r.name :: names else names, r' :: rs')

structure CompiledSan : Type where
  block : List CRule
  warn : List CRule

/-- `scan` with regex state: block pass then warn pass (lines 49-54). -/
def scanS (content : String) (c : CompiledSan) :
    (List String × List String) × CompiledSan :=
  let (bn, b') := scanRules content c.block
  let (wn, w') := scanRules content c.warn
  ((bn, wn), ⟨b', w'⟩)

/-- `compileSan` (lines 45-48): fresh `RegExp` objects, flags defaulted to
`""`, `lastIndex` 0. -/
def compileSan (block warn : List SanRuleSpec) : CompiledSan :=
  ⟨block.map (fun r => ⟨r.name, r.flags.getD "", r.step, 0⟩),
    warn.map (fun r => ⟨r.name, r.flags.getD "", r.step, 0⟩)⟩

/-- The regex state left behind by scanning a sequence of earlier
documents in the same run. -/
def scanDocs (docs : List String) (c : CompiledSan) : CompiledSan :=
  docs.foldl (fun c d => (scanS d c).2) c

/-- A flagless block rule set: a token-ish detector (fires when the text
contains the word `token`). -/
def c10BlockRules : List SanRuleSpec :=
  [⟨"token-like", none, fun s i => if ("token".data).isPrefixOf (s.data.drop i) then
      some (i + 5) else none⟩]

/-- A flagless warn rule set that never fires. -/
def c10WarnRules : List SanRuleSpec := [⟨"generic-email", some "", fun _ _ => none⟩]

/-! ## Lifecycle / structural auditor (`validate`, `patternlint.mjs` lines 117-134) -/

/-- `hasSection(md, heading)` (lines 25-28): the multiline regex
`^##\s+<escaped heading>\s*$` — some line is `##`, one or more whitespace
characters, the literal heading, then only whitespace to the end of the
line.  (The heading is regex-escaped in the source, hence literal; the
model commits to the maximal-munch reading of `\s+`, which agrees with the
regex whenever the heading does not itself start with whitespace.) -/
def hasSection (md heading : String) : Bool :=
  (lineSplit md).any (fun line =>
    match line.data with
    | '#' :: '#' :: rest =>
      (rest.takeWhile isJsSpace) ≠ [] &&
        heading.data.isPrefixOf (rest.dropWhile isJsSpace) &&
        ((rest.dropWhile isJsSpace).drop heading.data.length).all isJsSpace
    | _ => false)

def isTripleDash (cs : List Char) : Bool := ['-', '-', '-'].isPrefixOf cs

/-- Scan for the first occurrence of `---` and return the text after it,
or `none`. -/
def findClose : List Char → Option (List Char)
  | [] => none
  | c :: cs => if isTripleDash (c :: cs) then some (cs.drop 2) else findClose cs

/-- The first match of `/^---[\s\S]*?---\s*/m` removed
(`extractBodyChars`, line 29): at the first line start opening with
`---`, lazily up to the next `---` anywhere, plus trailing whitespace.
`none` when the regex does not match (at most one `---` occurrence), in
which case `replace` leaves the string unchanged. -/
def removeFMBlock : Bool → List Char → Option (List Char)
  | _, [] => none
  | lineStart, c :: cs =>
    if lineStart && isTripleDash (c :: cs) then
      match findClose (cs.drop 2) with
      | some rest => some (rest.dropWhile isJsSpace)
      | none => none
    else (removeFMBlock (c = '\n') cs).map (fun r => c :: r)

/-- `extractBodyChars(md)` (line 29):
`md.replace(/^---[\s\S]*?---\s*/m,"").trim().length`. -/
def extractBodyChars (raw : String) : Nat :=
  (jsTrimList ((removeFMBlock true raw.data).getD raw.data)).length

/-- The lifecycle policy (`rules/lifecycle.json`), flattening the
`validated_requirements` object the source reads through optional
chaining; each piece may be absent (`?.` / `||` defaults). -/
structure Lifecycle : Type where
  required_sections_by_type : List (String × List String)
  min_body_chars : Option Nat
  required_front_matter_fields : Option (List String)

/-- `getReqSections(lifecycle, type)` (lines 55-57):
`lifecycle?.validated_requirements?.required_sections_by_type?.[type]||[]`.
A non-string `type` indexes the table with a coerced key that the policy
table does not contain, yielding `[]`. -/
def getReqSections (lc : Lifecycle) (ty : Option YamlValue) : List String :=
  match ty with
  | some (YamlValue.vStr t) =>
    ((lc.required_sections_by_type.find? (fun p => p.1 = t)).map (fun p => p.2)).getD []
  | _ => []

/-- The hard findings `validate` can attribute to one record: schema
failure, a sanitization block match, and the three structural failures of
the lifecycle auditor. -/
inductive Finding : Type where
  | schemaFail
  | sanitizeBlock (rule : String)
  | missingSection (sec : String)
  | bodyTooShort
  | missingField (fld : String)
deriving DecidableEq, Repr

def Finding.isStructural : Finding → Bool
  | Finding.missingSection _ => true
  | Finding.bodyTooShort => true
  | Finding.missingField _ => true
  | _ => false

/-- One record as the `validate` loop sees it: its path, parsed header,
body and raw text (`matter(raw)` is the library boundary; the run is
embedded as a function of its output). -/
structure RecordParsed : Type where
  file : String
  data : FM
  body : String
  raw : String

/-- The required-front-matter-field test of lines 128-133:
`!data[fld] || (Array.isArray(data[fld]) && data[fld].length===0)`. -/
def fieldMissing (data : FM) (fld : String) : Bool :=
  !truthyOpt (jsGet data fld) || isEmptyList (jsGet data fld)

/-- The lifecycle auditor's findings for one record (lines 117-134),
gated on `data.status==="validated"`: missing required sections (by
`data.type`), body shorter than `min_body_chars||0`, and missing/empty
required front-matter fields, in report order. -/
def structuralFindings (lc : Lifecycle) (data : FM) (body raw : String) : List Finding :=
  match jsGet data "status" with
  | some (YamlValue.vStr "validated") =>
    ((getReqSections lc (jsGet data "type")).filter (fun sec => !hasSection body sec)).map
        Finding.missingSection
      ++ (if extractBodyChars raw < lc.min_body_chars.getD 0 then [Finding.bodyTooShort] else [])
      ++ (((lc.required_front_matter_fields.getD []).filter (fieldMissing data)).map
        Finding.missingField)
  | _ => []

/-- Every hard finding `validate` attributes to one record (lines
104-134): schema result, block-rule matches on the raw text, then the
structural findings.  Warn-rule matches and similarity warnings are
reported but are not findings (they never set `failed`). -/
def perRecordFindings (schemaOk : FM → Bool) (lc : Lifecycle) (blockRules : List SanRule)
    (r : RecordParsed) : List Finding :=
  (if schemaOk r.data then [] else [Finding.schemaFail])
    ++ ((blockRules.filter (fun ru => ru.test r.raw)).map (fun ru => Finding.sanitizeBlock ru.name))
    ++ structuralFindings lc r.data r.body r.raw

/-- The meta entry built for a record in the first pass (lines 92-97). -/
def metaOf (r : RecordParsed) : MetaRec :=
  { file := r.file
    id := match jsGet r.data "id" with | some (YamlValue.vStr s) => s | _ => ""
    title := match jsGet r.data "title" with | some (YamlValue.vStr s) => s | _ => ""
    domain := match jsGet r.data "domain" with | some (YamlValue.vStr s) => s | _ => ""
    tags := match jsGet r.data "tags" with
      | some (YamlValue.vList xs) =>
        xs.filterMap (fun v => match v with | YamlValue.vStr s => some s | _ => none)
      | _ => [] }

/-- The observable outcome of one `validate` run. -/
structure ValidateOut : Type where
  report : List (String × List Finding)
  warnReport : List (String × List String)
  simReport : List (String × String)
  exit : Nat
deriving Repr

/-- The warn-rule names printed for one record (line 114). -/
def warnNames (warnRules : List SanRule) (r : RecordParsed) : List String :=
  (warnRules.filter (fun ru => ru.test r.raw)).map (fun ru => ru.name)

/-- The body of the `validate` main loop for one record, threading the
accumulated report, warn lines, similarity lines and the `failed` flag
(`failed := failed || ...` at each hard finding). -/
def validateStep (schemaOk : FM → Bool) (lc : Lifecycle) (blockRules warnRules : List SanRule)
    (g : GatePolicy) (meta : List MetaRec)
    (acc : List (String × List Finding) × List (String × List String) ×
      List (String × String) × Bool)
    (r : RecordParsed) :
    List (String × List Finding) × List (String × List String) ×
      List (String × String) × Bool :=
  let fs := perRecordFindings schemaOk lc blockRules r
  (acc.1 ++ [(r.file, fs)], acc.2.1 ++ [(r.file, warnNames warnRules r)],
    acc.2.2.1 ++ recordSimWarns g meta (metaOf r), acc.2.2.2 || !fs.isEmpty)

/-- The `validate` command (lines 90-152): a first pass builds `meta`, the
main loop accumulates per-record findings, warn matches and similarity
warnings while folding the `failed` flag, and the process exits
`failed ? 1 : 0`. -/
def validateRun (schemaOk : FM → Bool) (lc : Lifecycle) (blockRules warnRules : List SanRule)
    (g : GatePolicy) (records : List RecordParsed) : ValidateOut :=
  let meta := records.map metaOf
  let res := records.foldl (validateStep schemaOk lc blockRules warnRules g meta)
    ([], [], [], false)
  ⟨res.1, res.2.1, res.2.2.1, if res.2.2.2 then 1 else 0⟩

/-- A sample lifecycle policy demanding sections, length and fields. -/
def c5SampleLifecycle : Lifecycle :=
  ⟨[("troubleshooting", ["Context", "Fix"])], some 200, some ["maintainers"]⟩

/-- A draft record with a body violating every validated requirement. -/
def c5DraftRecord : RecordParsed :=
  ⟨"patterns/x.md", [("status", YamlValue.vStr "draft"), ("type", YamlValue.vStr "troubleshooting")],
    "tiny", "tiny"⟩

/-! ## Index builder (`index` command, `patternlint.mjs` lines 155-167) -/

/-- One index row (`rows.push({domain,id,title,type,status,path})`); field
values are the raw front-matter values (possibly `undefined`), the path
has backslashes normalised to `/`. -/
structure IndexRow : Type where
  domain : Option YamlValue
  id : Option YamlValue
  title : Option YamlValue
  type : Option YamlValue
  status : Option YamlValue
  path : String

/-- A record as the `index` command reads it: root-relative path and
parsed header. -/
structure PatternDoc : Type where
  relPath : String
  data : FM

def rowOf (d : PatternDoc) : IndexRow :=
  ⟨jsGet d.data "domain", jsGet d.data "id", jsGet d.data "title", jsGet d.data "type",
    jsGet d.data "status", String.mk (d.relPath.data.map (fun c => if c = '\\' then '/' else c))⟩

/-- `(x||"")` on a row field: the string itself, `""` for `undefined`
(string-valued metadata; this is what the comparator feeds to
`localeCompare`). -/
def strOr : Option YamlValue → String
  | some (YamlValue.vStr s) => s
  | _ => ""

/-- `localeCompare`, modelled as code-unit lexicographic comparison (the
spec's "(domain, id) lexicographically"; on the catalog's plain
lowercase-ASCII field values the default collation agrees with it). -/
def strCmp (a b : String) : Int :=
  if jsStrLt a b then -1 else if jsStrLt b a then 1 else 0

/-- The sort comparator of line 161:
`(a.domain||"").localeCompare(b.domain||"") || (a.id||"").localeCompare(b.id||"")`
(`x || y` on numbers: `y` exactly when `x` is 0). -/
def rowCmp (a b : IndexRow) : Int :=
  let c := strCmp (strOr a.domain) (strOr b.domain)
  if c = 0 then strCmp (strOr a.id) (strOr b.id) else c

/-- `Array.prototype.sort` with a consistent comparator: the stable
ascending order, embedded as an insertion sort. -/
def indexRows (docs : List PatternDoc) : List IndexRow :=
  List.insertionSort (fun a b => rowCmp a b ≤ 0) (docs.map rowOf)

/-- Rendering of a row value inside the template literal of line 163.
`undefined` interpolates as `"undefined"`; non-string YAML values would
interpolate via their JS `toString` (locale/time-zone dependent for
`Date`), rendered here as a tagged placeholder — no claim depends on
those bytes. -/
def renderCell : Option YamlValue → String
  | some (YamlValue.vStr s) => s
  | some (YamlValue.vBool b) => if b then "true" else "false"
  | some (YamlValue.vInt n) => toString n
  | some (YamlValue.vDate y m d) => "Date(" ++ toString y ++ "-" ++ toString m ++ "-" ++ toString d ++ ")"
  | some (YamlValue.vList _) => "(array)"
  | none => "undefined"

def renderRow (r : IndexRow) : String :=
  "| " ++ renderCell r.domain ++ " | `" ++ renderCell r.id ++ "` | " ++ renderCell r.title
    ++ " | " ++ renderCell r.type ++ " | " ++ renderCell r.status ++ " | `" ++ r.path ++ "` |"

def indexHeaderLines : List String :=
  ["# Patterns Index", "", "> Auto-generated by `patternlint index`.", "",
    "| Domain | ID | Title | Type | Status | Path |", "|---|---|---|---|---|---|"]

/-- The bytes written to `INDEX.md` (line 164): header lines, one rendered
row per record in sorted order, joined by newlines plus a trailing one. -/
def indexOutput (docs : List PatternDoc) : String :=
  String.intercalate "\n" (indexHeaderLines ++ (indexRows docs).map renderRow) ++ "\n"

/-- The filesystem state an `index` invocation touches: the corpus under
the patterns directory (which it only reads — `INDEX.md` is written at
the root, outside the scanned tree) and the output file. -/
structure FsState : Type where
  corpus : List PatternDoc
  indexFile : Option String

def runIndex (s : FsState) : FsState :=
  { corpus := s.corpus, indexFile := some (indexOutput s.corpus) }

/-! ## Staleness: the full engine (`staleness` command, `patternlint.mjs` lines 169-191) -/

/-- The ECMAScript relational comparison `v < today` performed on line 179,
where `v` is a front-matter value and `today` an ISO string.  Two strings
compare by code units; every other value coerces to a number while the
non-numeric date string coerces to `NaN`, making the comparison false —
in particular a js-yaml timestamp (`Date`) is never `<` an ISO string. -/
def jsLt : YamlValue → String → Bool
  | YamlValue.vStr s, today => jsStrLt s today
  | _, _ => false

/-- One entry of the `overdue` output list (line 180); `maintainers` is
omitted from the model (`data.maintainers||[]` is copied verbatim and
never consulted). -/
structure OverdueEntry : Type where
  id : Option YamlValue
  review_by : Option YamlValue
  file : String

/-- The overdue scan of lines 177-181: a record joins `overdue` exactly
when `data.status==="validated" && data.review_by && data.review_by<today`. -/
def mjsOverdue (files : List (String × String)) (today : String) : List OverdueEntry :=
  files.foldl
    (fun acc f =>
      let data := matterParse f.2
      match jsGet data "status" with
      | some (YamlValue.vStr "validated") =>
        match jsGet data "review_by" with
        | some rb =>
          if truthy rb && jsLt rb today then acc ++ [⟨jsGet data "id", some rb, f.1⟩] else acc
        | none => acc
      | _ => acc)
    []

/-! ## Staleness: the degraded auditor (`scripts/staleness.sh`) -/

/-- `front_matter()` (`staleness.sh` lines 43-51).  The helper pipes the
file through an awk program that uses `in` as a user variable (`in=1`,
`in && $0=="---"`); `in` is a reserved keyword in POSIX awk, so awk
(gawk, mawk, BSD awk alike) rejects the program with a syntax error
before reading any input.  Its stderr goes to `/dev/null` and the
non-zero exit is masked by `|| true`, so the helper prints nothing — the
empty string — for every file. -/
def sh_front_matter (_raw : String) : String := ""

/-- `trim()` (lines 53-58): strip one leading/trailing double quote, then
one leading/trailing single quote, then outer whitespace. -/
def sh_strip1 (c : Char) (l : List Char) : List Char :=
  let l1 := match l with
    | x :: xs => if x = c then xs else x :: xs
    | [] => []
  match l1.getLast? with
  | some x => if x = c then l1.dropLast else l1
  | none => l1

def sh_trim (s : String) : String :=
  String.mk (jsTrimList (sh_strip1 '\'' (sh_strip1 '"' s.data)))

/-- awk's default field splitting: the first whitespace-delimited field. -/
def awkField1 (l : List Char) : List Char :=
  ((l.dropWhile (fun c => c = ' ' || c = '\t')).takeWhile (fun c => !(c = ' ' || c = '\t')))

/-- `fm_scalar()` (lines 60-71): print the first line whose first field
matches `^key:$` or which matches `^key:[[:space:]]`, after
`sub("^[^:]+:[[:space:]]*","")` — strip the leading non-colon run, the
colon and following whitespace (a line starting with `:` is printed
unchanged, as `sub` finds no match).  (`IGNORECASE` is gawk-specific;
matching is modelled case-sensitively — the catalog's keys are
lowercase.) -/
def sh_fm_scalar (key fm : String) : String :=
  match (lineSplit fm).filter (fun l =>
      awkField1 l.data = (key ++ ":").data ||
        ((key ++ ":").data.isPrefixOf l.data &&
          isJsSpace ((l.data.drop (key.length + 1)).headD 'x'))) with
  | [] => ""
  | l :: _ =>
    match l.data with
    | ':' :: _ => l
    | _ =>
      match l.data.dropWhile (fun c => c ≠ ':') with
      | ':' :: rest => String.mk (rest.dropWhile isJsSpace)
      | _ => l

/-- Python's `datetime.date.fromisoformat` on dash-separated input: accepts
exactly `YYYY-MM-DD` with a valid calendar date (all supported Python
versions agree on this family of inputs), `none` (a raised `ValueError`)
otherwise. -/
def isoParse (s : String) : Option (Nat × Nat × Nat) :=
  match s.data with
  | [y1, y2, y3, y4, '-', m1, m2, '-', d1, d2] =>
    if [y1, y2, y3, y4, m1, m2, d1, d2].all isDigitCh then
      let y := digitsToNat [y1, y2, y3, y4]
      let m := digitsToNat [m1, m2]
      let d := digitsToNat [d1, d2]
      let leap := (y % 4 = 0 && y % 100 ≠ 0) || y % 400 = 0
      let dim := if m = 2 then (if leap then 29 else 28)
        else if m = 4 || m = 6 || m = 9 || m = 11 then 30 else 31
      if 1 ≤ y ∧ 1 ≤ m ∧ m ≤ 12 ∧ 1 ≤ d ∧ d ≤ dim then some (y, m, d) else none
    else none
  | _ => none

/-- `date_lt a b` (lines 97-106): parse both as dates and compare; a parse
failure raises in the Python child, whose non-zero exit the caller treats
as "not less". -/
def sh_date_lt (a b : String) : Bool :=
  match isoParse a, isoParse b with
  | some x, some y =>
    x.1 < y.1 || (x.1 = y.1 && (x.2.1 < y.2.1 || (x.2.1 = y.2.1 && x.2.2 < y.2.2)))
  | _, _ => false

/-- Proleptic-Gregorian day number (civil-from-days), used to model
Python's calendar-date subtraction `(date.today() - d).days`. -/
def dayNumber (y m d : Nat) : Nat :=
  let y' := if m ≤ 2 then y - 1 else y
  let mS := if m ≤ 2 then m + 9 else m - 3
  y' * 365 + y' / 4 + y' / 400 + (153 * mS + 2) / 5 + d - y' / 100

/-- `days_since d` (lines 108-119): days from `d` to today by calendar
subtraction, or nothing when `d` is malformed (the `except` swallows the
error and prints nothing). -/
def sh_days_since (d : String) (today : Nat × Nat × Nat) : Option Int :=
  (isoParse d).map (fun x =>
    (dayNumber today.1 today.2.1 today.2.2 : Int) - (dayNumber x.1 x.2.1 x.2.2 : Int))

/-- The first scan loop of `staleness.sh` (lines 126-158) restricted to
its `validated_overdue` output: per file, extract the front matter (which
the broken awk helper always returns empty, so the `[ -z "$fm" ] &&
continue` guard always fires), then the id/status/review_by fields, and
record `id` when the record is validated with a review date before
today. -/
def shOverdue (files : List (String × String)) (today : String) : List String :=
  files.foldl
    (fun acc f =>
      let fm := sh_front_matter f.2
      if fm = "" then acc
      else
        let id := sh_trim (sh_fm_scalar "id" fm)
        if id = "" then acc
        else
          let status := sh_trim (sh_fm_scalar "status" fm)
          let review_by := sh_trim (sh_fm_scalar "review_by" fm)
          if status = "validated" && review_by ≠ "" && sh_date_lt review_by today then
            acc ++ [id]
          else acc)
    []

/-- The `validated_warn` (StaleVerification) accumulation of lines
151-156, same caveat about the dead front-matter helper. -/
def shStaleVerification (files : List (String × String)) (today : Nat × Nat × Nat)
    (maxDays : Int) : List String :=
  files.foldl
    (fun acc f =>
      let fm := sh_front_matter f.2
      if fm = "" then acc
      else
        let id := sh_trim (sh_fm_scalar "id" fm)
        if id = "" then acc
        else
          let status := sh_trim (sh_fm_scalar "status" fm)
          let lv := sh_trim (sh_fm_scalar "last_verified" fm)
          if status = "validated" && lv ≠ "" then
            match sh_days_since lv today with
            | some ds => if ds > maxDays then acc ++ [id] else acc
            | none => acc
          else acc)
    []

/-! ## Scenario inputs for the staleness claims -/

/-- The spec's parser-agreement scenario file: `id: foo`,
`status: validated`, `review_by: 2020-01-01`. -/
def scenarioFileC1 : String :=
  "---\nid: foo\nstatus: validated\nreview_by: 2020-01-01\n---\n\n## Context\nBody text.\n"

/-- A validated record with yesterday's review date written as an
unquoted YAML scalar (the form every pattern file in the repository
uses), relative to a `today` of 2026-10-11. -/
def c4UnquotedYesterday : String :=
  "---\nid: foo\nstatus: validated\nreview_by: 2026-10-10\n---\nBody text.\n"

/-- The same record with the review date quoted, so gray-matter keeps it
a string. -/
def c4QuotedYesterday : String :=
  "---\nid: foo\nstatus: validated\nreview_by: \"2026-10-10\"\n---\nBody text.\n"

/-- The same record with tomorrow's date quoted. -/
def c4QuotedTomorrow : String :=
  "---\nid: foo\nstatus: validated\nreview_by: \"2026-10-12\"\n---\nBody text.\n"

/-- A validated record whose review date is malformed (`2020-1-1` is not
a YAML timestamp and not a parseable ISO date) and lexicographically
below today's ISO string. -/
def c2MalformedBelow : String :=
  "---\nid: foo\nstatus: validated\nreview_by: 2020-1-1\n---\nBody text.\n"

/-- A validated record with a malformed review date lexicographically
above today's ISO string. -/
def c2MalformedAbove : String :=
  "---\nid: foo\nstatus: validated\nreview_by: 9999-99\n---\nBody text.\n"

/-! ## Helper lemmas -/

theorem lev_cons_cons (x y : Char) (xs ys : List Char) :
    lev (x :: xs) (y :: ys) =
      min (lev xs (y :: ys) + 1)
        (min (lev (x :: xs) ys + 1) (lev xs ys + (if x = y then 0 else 1))) := rfl

theorem lev_nil_right : ∀ xs : List Char, lev xs [] = xs.length := by
  intro xs
  induction xs with
  | nil => rfl
  | cons x xs ih =>
    show lev xs [] + 1 = xs.length + 1
    rw [ih]

theorem lev_self : ∀ xs : List Char, lev xs xs = 0 := by
  intro xs
  induction xs with
  | nil => rfl
  | cons x xs ih => simp [lev_cons_cons, ih]

theorem lev_comm : ∀ xs ys : List Char, lev xs ys = lev ys xs := by
  intro xs
  induction xs with
  | nil =>
    intro ys
    cases ys with
    | nil => rfl
    | cons y ys =>
      show ys.length + 1 = lev (y :: ys) []
      rw [lev_nil_right]
      rfl
  | cons x xs ih =>
    intro ys
    induction ys with
    | nil =>
      show lev (x :: xs) [] = (x :: xs).length
      rw [lev_nil_right]
    | cons y ys ihy =>
      have hc : (if x = y then 0 else 1) = (if y = x then 0 else 1) := by
        by_cases h : x = y
        · simp [h]
        · have h2 : ¬y = x := fun hyx => h hyx.symm
          simp [h, h2]
      rw [lev_cons_cons, lev_cons_cons, ih (y :: ys), ihy, ih ys, hc]
      omega

theorem lev_le_max : ∀ xs ys : List Char, lev xs ys ≤ max xs.length ys.length := by
  intro xs
  induction xs with
  | nil =>
    intro ys
    show ys.length ≤ max 0 ys.length
    omega
  | cons x xs ih =>
    intro ys
    induction ys with
    | nil =>
      rw [lev_nil_right]
      omega
    | cons y ys ihy =>
      have h1 := ih (y :: ys)
      have h2 := ihy
      have h3 := ih ys
      have hcost : (if x = y then 0 else 1) ≤ 1 := by
        by_cases h : x = y <;> simp [h]
      rw [lev_cons_cons]
      simp only [List.length_cons] at *
      omega

theorem str_len_pos (s : String) (h : s ≠ "") : 0 < s.length := by
  rcases hd : s.data with _ | _
  · exact absurd (String.ext hd) h
  · have : s.length = s.data.length := rfl
    rw [this, hd]
    simp

theorem str_data_of_empty (s : String) (h : s = "") : s.data = [] := by
  rw [h]

theorem lev_nil_left (ys : List Char) : lev [] ys = ys.length := by
  cases ys <;> simp [lev]

/-- The ratio formula whenever the normalized titles are not both empty. -/
theorem levenshteinRatio_formula (a b : String)
    (h : ¬(normalizeTitle a = "" ∧ normalizeTitle b = "")) :
    levenshteinRatio a b =
      1 - (lev (normalizeTitle a).data (normalizeTitle b).data : ℚ) /
        ((max (normalizeTitle a).length (normalizeTitle b).length : ℕ) : ℚ) := by
  rw [levenshteinRatio]
  simp only [if_neg h]
  by_cases ha : normalizeTitle a = ""
  · have hb : normalizeTitle b ≠ "" := fun hb => h ⟨ha, hb⟩
    have hbl : 0 < (normalizeTitle b).length := str_len_pos _ hb
    have hda : (normalizeTitle a).data = [] := str_data_of_empty _ ha
    have hla : (normalizeTitle a).length = 0 := by
      rw [show (normalizeTitle a).length = (normalizeTitle a).data.length from rfl, hda]
      rfl
    have hlb : (normalizeTitle b).length = (normalizeTitle b).data.length := rfl
    rw [if_pos (Or.inl ha), hda, lev_nil_left, hla, Nat.max_eq_right (Nat.zero_le _), ← hlb]
    have hne : ((normalizeTitle b).length : ℚ) ≠ 0 := by exact_mod_cast hbl.ne'
    rw [div_self hne]
    norm_num
  · by_cases hb : normalizeTitle b = ""
    · have hal : 0 < (normalizeTitle a).length := str_len_pos _ ha
      have hdb : (normalizeTitle b).data = [] := str_data_of_empty _ hb
      have hlb : (normalizeTitle b).length = 0 := by
        rw [show (normalizeTitle b).length = (normalizeTitle b).data.length from rfl, hdb]
        rfl
      have hla : (normalizeTitle a).length = (normalizeTitle a).data.length := rfl
      rw [if_pos (Or.inr hb), hdb, lev_nil_right, hlb, Nat.max_eq_left (Nat.zero_le _), ← hla]
      have hne : ((normalizeTitle a).length : ℚ) ≠ 0 := by exact_mod_cast hal.ne'
      rw [div_self hne]
      norm_num
    · have hal : 0 < (normalizeTitle a).length := str_len_pos _ ha
      rw [if_neg (show ¬(normalizeTitle a = "" ∨ normalizeTitle b = "") by
        push_neg
        exact ⟨ha, hb⟩)]
      have hmax : ¬(max (normalizeTitle a).length (normalizeTitle b).length = 0) := by
        omega
      simp only [if_neg hmax]

theorem levenshteinRatio_bounds (a b : String) :
    0 ≤ levenshteinRatio a b ∧ levenshteinRatio a b ≤ 1 := by
  by_cases h : normalizeTitle a = "" ∧ normalizeTitle b = ""
  · rw [levenshteinRatio, if_pos h]
    norm_num
  · rw [levenshteinRatio_formula a b h]
    have hle := lev_le_max (normalizeTitle a).data (normalizeTitle b).data
    have hlena : (normalizeTitle a).length = (normalizeTitle a).data.length := rfl
    have hlenb : (normalizeTitle b).length = (normalizeTitle b).data.length := rfl
    have hpos : 0 < max (normalizeTitle a).length (normalizeTitle b).length := by
      rcases not_and_or.mp h with h1 | h1
      · have := str_len_pos _ h1
        omega
      · have := str_len_pos _ h1
        omega
    have hposQ : (0 : ℚ) <
        ((max (normalizeTitle a).length (normalizeTitle b).length : ℕ) : ℚ) := by
      exact_mod_cast hpos
    constructor
    · have hd : (lev (normalizeTitle a).data (normalizeTitle b).data : ℚ) ≤
          ((max (normalizeTitle a).length (normalizeTitle b).length : ℕ) : ℚ) := by
        rw [hlena, hlenb]
        exact_mod_cast hle
      have := (div_le_one hposQ).mpr hd
      linarith
    · have hd : (0 : ℚ) ≤ (lev (normalizeTitle a).data (normalizeTitle b).data : ℚ) /
          ((max (normalizeTitle a).length (normalizeTitle b).length : ℕ) : ℚ) := by
        apply div_nonneg _ (le_of_lt hposQ)
        exact_mod_cast Nat.zero_le _
      linarith

theorem levenshteinRatio_self (a : String) : levenshteinRatio a a = 1 := by
  by_cases h : normalizeTitle a = ""
  · rw [levenshteinRatio, if_pos ⟨h, h⟩]
  · rw [levenshteinRatio_formula a a (fun hc => h hc.1), lev_self]
    norm_num

theorem levenshteinRatio_comm (a b : String) :
    levenshteinRatio a b = levenshteinRatio b a := by
  by_cases hab : normalizeTitle a = "" ∧ normalizeTitle b = ""
  · rw [levenshteinRatio, levenshteinRatio, if_pos hab, if_pos ⟨hab.2, hab.1⟩]
  · have hba : ¬(normalizeTitle b = "" ∧ normalizeTitle a = "") := fun hc => hab ⟨hc.2, hc.1⟩
    rw [levenshteinRatio_formula a b hab, levenshteinRatio_formula b a hba,
      lev_comm, Nat.max_comm]

theorem tagOverlap_eq_card_inter (a b : MetaRec) :
    tagOverlap a b = (a.tags.toFinset ∩ b.tags.toFinset).card := by
  rw [tagOverlap, ← List.card_toFinset]
  congr 1
  ext t
  simp [List.mem_toFinset, List.mem_filter, Finset.mem_inter, List.elem_iff]

theorem tagOverlap_comm (a b : MetaRec) : tagOverlap a b = tagOverlap b a := by
  rw [tagOverlap_eq_card_inter, tagOverlap_eq_card_inter, Finset.inter_comm]

theorem sameDomain_comm (a b : MetaRec) : sameDomain a b = sameDomain b a := by
  rw [sameDomain, sameDomain]
  by_cases h : a.domain = b.domain
  · rw [h]
  · have h2 : ¬b.domain = a.domain := fun hc => h hc.symm
    simp [h, h2]

theorem foldl_append_acc {α β : Type} (f : α → List β) :
    ∀ (l : List α) (acc : List β),
      l.foldl (fun a x => a ++ f x) acc = acc ++ l.flatMap f := by
  intro l
  induction l with
  | nil => intro acc; simp
  | cons x xs ih =>
    intro acc
    rw [List.foldl_cons, ih, List.flatMap_cons, List.append_assoc]

theorem simWarnings_eq_flatMap (g : GatePolicy) (meta : List MetaRec) :
    simWarnings g meta = meta.flatMap (recordSimWarns g meta) := by
  rw [simWarnings, foldl_append_acc, List.nil_append]

theorem recordSimWarns_mem (g : GatePolicy) (meta : List MetaRec) (self : MetaRec)
    (p q : String) :
    (p, q) ∈ recordSimWarns g meta self ↔
      self.id ≠ "" ∧ p = self.id ∧
        ∃ o ∈ meta, o.file ≠ self.file ∧ o.id ≠ "" ∧ simFlag g self o = true ∧ q = o.id := by
  rw [recordSimWarns]
  by_cases h : self.id = ""
  · simp [h]
  · rw [if_pos h]
    constructor
    · intro hmem
      rcases List.mem_map.mp hmem with ⟨o, hofil, heq⟩
      rcases List.mem_filter.mp hofil with ⟨ho, hcond⟩
      simp only [Bool.and_eq_true, decide_eq_true_eq] at hcond
      obtain ⟨⟨hf, hid⟩, hflag⟩ := hcond
      simp only [Prod.mk.injEq] at heq
      obtain ⟨hp, hq⟩ := heq
      exact ⟨h, hp.symm, o, ho, hf, hid, hflag, hq.symm⟩
    · rintro ⟨-, hp, o, ho, hf, hid, hflag, hq⟩
      apply List.mem_map.mpr
      refine ⟨o, List.mem_filter.mpr ⟨ho, ?_⟩, ?_⟩
      · simp only [Bool.and_eq_true, decide_eq_true_eq]
        exact ⟨⟨hf, hid⟩, hflag⟩
      · rw [hp, hq]

theorem simFlag_iff (g : GatePolicy) (a b : MetaRec) :
    simFlag g a b = true ↔
      (sameDomain a b = true ∧ g.min_tag_overlap.getD 3 ≤ tagOverlap a b) ∨
        g.or_title_levenshtein_ratio.getD (70 / 100) ≤ levenshteinRatio a.title b.title := by
  rw [simFlag]
  simp [Bool.or_eq_true, Bool.and_eq_true, decide_eq_true_eq, ge_iff_le]

/-- C6: a pair of distinct id-bearing records is flagged exactly when
`(sameDomain ∧ tagOverlap ≥ minOverlap) ∨ titleRatio ≥ levenshteinThreshold`,
with the thresholds defaulting to 3 and 0.70 when the similarity policy
omits them; and the concrete scenario — same non-empty domain `testing`,
tag sets `{a,b,c}` and `{a,b,c,d}` (overlap 3), unrelated titles — is
flagged. -/
theorem c6_similarity_flagging :
    (∀ (g : GatePolicy) (meta : List MetaRec) (p q : String),
      (p, q) ∈ simWarnings g meta ↔
        ∃ a ∈ meta, ∃ b ∈ meta, a.id = p ∧ b.id = q ∧ a.id ≠ "" ∧ b.id ≠ "" ∧
          b.file ≠ a.file ∧
          ((sameDomain a b = true ∧ g.min_tag_overlap.getD 3 ≤ tagOverlap a b) ∨
            g.or_title_levenshtein_ratio.getD (70 / 100) ≤ levenshteinRatio a.title b.title)) ∧
    ("id-a", "id-b") ∈ simWarnings ⟨none, none⟩
      [⟨"patterns/a.md", "id-a", "alpha", "testing", ["a", "b", "c"]⟩,
        ⟨"patterns/b.md", "id-b", "zzz", "testing", ["a", "b", "c", "d"]⟩] := by
  constructor
  · intro g meta p q
    rw [simWarnings_eq_flatMap, List.mem_flatMap]
    constructor
    · rintro ⟨a, ha, hmem⟩
      rcases (recordSimWarns_mem g meta a p q).mp hmem with ⟨hid, hp, o, ho, hf, hoid, hflag, hq⟩
      exact ⟨a, ha, o, ho, hp.symm, hq.symm, hid, hoid, hf, (simFlag_iff g a o).mp hflag⟩
    · rintro ⟨a, ha, b, hb, hp, hq, hid, hbid, hf, hcond⟩
      exact ⟨a, ha, (recordSimWarns_mem g meta a p q).mpr
        ⟨hid, hp.symm, b, hb, hf, hbid, (simFlag_iff g a b).mpr hcond, hq.symm⟩⟩
  · decide

/-- C7: `titleRatio` normalizes both titles and equals
`1 − editDistance/max(len a, len b)` on the normalized strings (whenever
they are not both empty, where it is defined as 1); it always lies in
[0,1]; `titleRatio(a,a) = 1`, `titleRatio("","") = 1`,
`titleRatio("","x") = 0`. -/
theorem c7_title_ratio_properties :
    (∀ a b : String, 0 ≤ levenshteinRatio a b ∧ levenshteinRatio a b ≤ 1) ∧
    (∀ a b : String, ¬(normalizeTitle a = "" ∧ normalizeTitle b = "") →
      levenshteinRatio a b =
        1 - (lev (normalizeTitle a).data (normalizeTitle b).data : ℚ) /
          ((max (normalizeTitle a).length (normalizeTitle b).length : ℕ) : ℚ)) ∧
    (∀ a : String, a ≠ "" → levenshteinRatio a a = 1) ∧
    levenshteinRatio "" "" = 1 ∧ levenshteinRatio "" "x" = 0 :=
  ⟨levenshteinRatio_bounds, levenshteinRatio_formula,
    fun a _ => levenshteinRatio_self a, by decide, by decide⟩

/-- C7 witness: the formula and the self-similarity parts applied at
concrete titles. -/
theorem c7_witness :
    levenshteinRatio "ab" "" =
      1 - (lev (normalizeTitle "ab").data (normalizeTitle "").data : ℚ) /
        ((max (normalizeTitle "ab").length (normalizeTitle "").length : ℕ) : ℚ) ∧
    levenshteinRatio "Retry Strategy" "Retry Strategy" = 1 :=
  ⟨c7_title_ratio_properties.2.1 "ab" "" (by decide),
    c7_title_ratio_properties.2.2.1 "Retry Strategy" (by decide)⟩

/-- C8: similarity detection is symmetric — `sameDomain`, `tagOverlap`
and `titleRatio` are invariant under swapping the two records. -/
theorem c8_similarity_symmetric (a b : MetaRec) :
    sameDomain a b = sameDomain b a ∧ tagOverlap a b = tagOverlap b a ∧
      levenshteinRatio a.title b.title = levenshteinRatio b.title a.title :=
  ⟨sameDomain_comm a b, tagOverlap_comm a b, levenshteinRatio_comm a.title b.title⟩

theorem structuralFindings_of_not_validated (lc : Lifecycle) (data : FM) (body raw : String)
    (h : jsGet data "status" ≠ some (YamlValue.vStr "validated")) :
    structuralFindings lc data body raw = [] := by
  rw [structuralFindings]
  split
  · next heq => exact absurd heq h
  · rfl

/-- C5: a record whose status is not the string `validated` gets no
structural finding — no missing section, no body-too-short, no
missing/empty required front-matter field — whatever its body, raw text,
schema result, block rules or lifecycle policy. -/
theorem c5_no_structural_failure_unless_validated
    (schemaOk : FM → Bool) (lc : Lifecycle) (blockRules : List SanRule) (r : RecordParsed)
    (h : jsGet r.data "status" ≠ some (YamlValue.vStr "validated")) :
    ∀ f ∈ perRecordFindings schemaOk lc blockRules r, f.isStructural = false := by
  intro f hf
  rw [perRecordFindings, structuralFindings_of_not_validated lc r.data r.body r.raw h,
    List.append_nil] at hf
  rcases List.mem_append.mp hf with h1 | h2
  · by_cases hok : schemaOk r.data
    · rw [if_pos hok] at h1
      simp at h1
    · rw [if_neg hok] at h1
      simp only [List.mem_singleton] at h1
      rw [h1]
      rfl
  · rcases List.mem_map.mp h2 with ⟨ru, _, hfe⟩
    rw [← hfe]
    rfl

/-- C5 witness: a draft record under a demanding lifecycle policy and a
failing schema yields findings, none of them structural. -/
theorem c5_witness :
    ((perRecordFindings (fun _ => false) c5SampleLifecycle [] c5DraftRecord).all
      (fun f => !f.isStructural)) = true := by
  rw [List.all_eq_true]
  intro f hf
  have h := c5_no_structural_failure_unless_validated (fun _ => false) c5SampleLifecycle []
    c5DraftRecord (by intro hc; simp [c5DraftRecord, jsGet] at hc) f hf
  rw [h]
  rfl

theorem validateStep_foldl (schemaOk : FM → Bool) (lc : Lifecycle)
    (blockRules warnRules : List SanRule) (g : GatePolicy) (meta : List MetaRec) :
    ∀ (records : List RecordParsed)
      (acc : List (String × List Finding) × List (String × List String) ×
        List (String × String) × Bool),
      records.foldl (validateStep schemaOk lc blockRules warnRules g meta) acc =
        (acc.1 ++ records.map (fun r => (r.file, perRecordFindings schemaOk lc blockRules r)),
          acc.2.1 ++ records.map (fun r => (r.file, warnNames warnRules r)),
          acc.2.2.1 ++ records.flatMap (fun r => recordSimWarns g meta (metaOf r)),
          acc.2.2.2 || records.any
            (fun r => !(perRecordFindings schemaOk lc blockRules r).isEmpty)) := by
  intro records
  induction records with
  | nil =>
    intro acc
    simp
  | cons r rs ih =>
    intro acc
    rw [List.foldl_cons, ih, validateStep]
    simp [List.append_assoc, Bool.or_assoc]

/-- C3: `validate` exits 1 exactly when some record has a hard finding
(schema failure, sanitization block, or structural failure) and 0
otherwise; the report covers every record with that record's findings (no
short-circuit); and changing the warn rules or the similarity policy
never changes the exit code. -/
theorem c3_validate_exit_code (schemaOk : FM → Bool) (lc : Lifecycle)
    (blockRules warnRules warnRules2 : List SanRule) (g g2 : GatePolicy)
    (records : List RecordParsed) :
    ((validateRun schemaOk lc blockRules warnRules g records).exit = 1 ↔
      ∃ r ∈ records, perRecordFindings schemaOk lc blockRules r ≠ []) ∧
    ((validateRun schemaOk lc blockRules warnRules g records).exit = 0 ↔
      ¬∃ r ∈ records, perRecordFindings schemaOk lc blockRules r ≠ []) ∧
    (validateRun schemaOk lc blockRules warnRules g records).report =
      records.map (fun r => (r.file, perRecordFindings schemaOk lc blockRules r)) ∧
    (validateRun schemaOk lc blockRules warnRules g records).exit =
      (validateRun schemaOk lc blockRules warnRules2 g2 records).exit := by
  have hspec : ∀ (w : List SanRule) (gp : GatePolicy),
      (validateRun schemaOk lc blockRules w gp records).exit =
        (if records.any (fun r => !(perRecordFindings schemaOk lc blockRules r).isEmpty)
          then 1 else 0) := by
    intro w gp
    rw [validateRun, validateStep_foldl]
    simp
  have hany : (records.any (fun r => !(perRecordFindings schemaOk lc blockRules r).isEmpty)
        = true) ↔
      ∃ r ∈ records, perRecordFindings schemaOk lc blockRules r ≠ [] := by
    rw [List.any_eq_true]
    constructor
    · rintro ⟨r, hr, hne⟩
      refine ⟨r, hr, ?_⟩
      intro hc
      rw [hc] at hne
      simp at hne
    · rintro ⟨r, hr, hne⟩
      refine ⟨r, hr, ?_⟩
      simp [List.isEmpty_iff, hne]
  refine ⟨?_, ?_, ?_, ?_⟩
  · rw [hspec warnRules g]
    by_cases hc : records.any (fun r => !(perRecordFindings schemaOk lc blockRules r).isEmpty)
    · simp [hc, hany.mp hc]
    · rw [if_neg hc]
      simp only [Bool.not_eq_true] at hc
      constructor
      · intro h0
        exact absurd h0 (by norm_num)
      · intro hex
        exact absurd (hany.mpr hex) (by rw [hc]; simp)
  · rw [hspec warnRules g]
    by_cases hc : records.any (fun r => !(perRecordFindings schemaOk lc blockRules r).isEmpty)
    · rw [if_pos hc]
      constructor
      · intro h0
        exact absurd h0 (by norm_num)
      · intro hnex
        exact absurd (hany.mp hc) hnex
    · rw [if_neg hc]
      simp only [Bool.not_eq_true] at hc
      constructor
      · intro _ hex
        exact absurd (hany.mpr hex) (by rw [hc]; simp)
      · intro _
        rfl
  · rw [validateRun, validateStep_foldl]
    simp
  · rw [hspec warnRules g, hspec warnRules2 g2]

/-! ### Order lemmas for the index comparator -/

theorem char_eq_of_toNat_eq {x y : Char} (h : x.toNat = y.toNat) : x = y :=
  Char.ext (UInt32.ext h)

theorem listLt_irrefl : ∀ l : List Char, listLtChar l l = false := by
  intro l
  induction l with
  | nil => rfl
  | cons x xs ih => simp [listLtChar, ih]

theorem listLt_asymm : ∀ a b : List Char, listLtChar a b = true → listLtChar b a = false := by
  intro a
  induction a with
  | nil =>
    intro b hb
    cases b with
    | nil => exact absurd hb (by simp [listLtChar])
    | cons y ys => rfl
  | cons x xs ih =>
    intro b hb
    cases b with
    | nil => exact absurd hb (by simp [listLtChar])
    | cons y ys =>
      rw [listLtChar] at hb ⊢
      by_cases h1 : x.toNat < y.toNat
      · have h2 : ¬y.toNat < x.toNat := by omega
        simp [h1, h2]
      · by_cases h2 : y.toNat < x.toNat
        · rw [if_neg h1, if_pos h2] at hb
          exact absurd hb (by simp)
        · rw [if_neg h1, if_neg h2] at hb
          rw [if_neg h2, if_neg h1]
          exact ih ys hb

theorem listLt_connex : ∀ a b : List Char,
    listLtChar a b = false → listLtChar b a = false → a = b := by
  intro a
  induction a with
  | nil =>
    intro b h1 _
    cases b with
    | nil => rfl
    | cons y ys => exact absurd h1 (by simp [listLtChar])
  | cons x xs ih =>
    intro b h1 h2
    cases b with
    | nil => exact absurd h2 (by simp [listLtChar])
    | cons y ys =>
      rw [listLtChar] at h1 h2
      by_cases hxy : x.toNat < y.toNat
      · rw [if_pos hxy] at h1
        exact absurd h1 (by simp)
      · by_cases hyx : y.toNat < x.toNat
        · rw [if_pos hyx] at h2
          exact absurd h2 (by simp)
        · rw [if_neg hxy, if_neg hyx] at h1
          rw [if_neg hyx, if_neg hxy] at h2
          have hx : x = y := char_eq_of_toNat_eq (by omega)
          rw [hx, ih ys h1 h2]

theorem listLt_trans : ∀ a b c : List Char,
    listLtChar a b = true → listLtChar b c = true → listLtChar a c = true := by
  intro a
  induction a with
  | nil =>
    intro b c hab hbc
    cases b with
    | nil => exact absurd hab (by simp [listLtChar])
    | cons y ys =>
      cases c with
      | nil => exact absurd hbc (by simp [listLtChar])
      | cons z zs => simp [listLtChar]
  | cons x xs ih =>
    intro b c hab hbc
    cases b with
    | nil => exact absurd hab (by simp [listLtChar])
    | cons y ys =>
      cases c with
      | nil => exact absurd hbc (by simp [listLtChar])
      | cons z zs =>
        rw [listLtChar] at hab hbc ⊢
        by_cases hxy : x.toNat < y.toNat
        · by_cases hyz : y.toNat < z.toNat
          · have : x.toNat < z.toNat := by omega
            simp [this]
          · by_cases hzy : z.toNat < y.toNat
            · rw [if_neg hyz, if_pos hzy] at hbc
              exact absurd hbc (by simp)
            · have hyz2 : y.toNat = z.toNat := by omega
              have : x.toNat < z.toNat := by omega
              simp [this]
        · by_cases hyx : y.toNat < x.toNat
          · rw [if_neg hxy, if_pos hyx] at hab
            exact absurd hab (by simp)
          · have hxy2 : x.toNat = y.toNat := by omega
            rw [if_neg hxy, if_neg hyx] at hab
            by_cases hyz : y.toNat < z.toNat
            · have : x.toNat < z.toNat := by omega
              simp [this]
            · by_cases hzy : z.toNat < y.toNat
              · rw [if_neg hyz, if_pos hzy] at hbc
                exact absurd hbc (by simp)
              · rw [if_neg hyz, if_neg hzy] at hbc
                have h1 : ¬x.toNat < z.toNat := by omega
                have h2 : ¬z.toNat < x.toNat := by omega
                rw [if_neg h1, if_neg h2]
                exact ih ys zs hab hbc

theorem jsStrLt_asymm (a b : String) (h : jsStrLt a b = true) : jsStrLt b a = false :=
  listLt_asymm a.data b.data h

theorem jsStrLt_connex (a b : String) (h1 : jsStrLt a b = false) (h2 : jsStrLt b a = false) :
    a = b :=
  String.ext (listLt_connex a.data b.data h1 h2)

theorem jsStrLt_trans (a b c : String) (h1 : jsStrLt a b = true) (h2 : jsStrLt b c = true) :
    jsStrLt a c = true :=
  listLt_trans a.data b.data c.data h1 h2

theorem jsStrLt_irrefl (a : String) : jsStrLt a a = false := listLt_irrefl a.data

theorem strCmp_le_zero_iff (a b : String) : strCmp a b ≤ 0 ↔ jsStrLt b a = false := by
  rw [strCmp]
  by_cases h1 : jsStrLt a b = true
  · rw [if_pos h1, jsStrLt_asymm a b h1]
    norm_num
  · rw [if_neg h1]
    by_cases h2 : jsStrLt b a = true
    · rw [if_pos h2, h2]
      norm_num
    · rw [if_neg h2]
      simp only [Bool.not_eq_true] at h2
      rw [h2]
      norm_num

theorem strCmp_eq_zero_iff (a b : String) : strCmp a b = 0 ↔ a = b := by
  rw [strCmp]
  by_cases h1 : jsStrLt a b = true
  · rw [if_pos h1]
    constructor
    · intro h
      exact absurd h (by norm_num)
    · intro h
      subst h
      rw [jsStrLt_irrefl] at h1
      exact absurd h1 (by simp)
  · rw [if_neg h1]
    by_cases h2 : jsStrLt b a = true
    · rw [if_pos h2]
      constructor
      · intro h
        exact absurd h (by norm_num)
      · intro h
        subst h
        rw [jsStrLt_irrefl] at h2
        exact absurd h2 (by simp)
    · rw [if_neg h2]
      simp only [Bool.not_eq_true] at h1 h2
      exact ⟨fun _ => jsStrLt_connex a b h1 h2, fun _ => rfl⟩

theorem rowLe_iff (a b : IndexRow) :
    rowCmp a b ≤ 0 ↔
      (jsStrLt (strOr a.domain) (strOr b.domain) = true ∨
        (strOr a.domain = strOr b.domain ∧ jsStrLt (strOr b.id) (strOr a.id) = false)) := by
  rw [rowCmp]
  by_cases h0 : strCmp (strOr a.domain) (strOr b.domain) = 0
  · rw [if_pos h0]
    have heq : strOr a.domain = strOr b.domain := (strCmp_eq_zero_iff _ _).mp h0
    rw [strCmp_le_zero_iff]
    constructor
    · intro h
      exact Or.inr ⟨heq, h⟩
    · rintro (h | ⟨-, h⟩)
      · rw [heq, jsStrLt_irrefl] at h
        exact absurd h (by simp)
      · exact h
  · rw [if_neg h0]
    have hne : strOr a.domain ≠ strOr b.domain := fun hc => h0 ((strCmp_eq_zero_iff _ _).mpr hc)
    constructor
    · intro h
      left
      by_cases h1 : jsStrLt (strOr a.domain) (strOr b.domain) = true
      · exact h1
      · exfalso
        rw [strCmp, if_neg h1] at h h0
        by_cases h2 : jsStrLt (strOr b.domain) (strOr a.domain) = true
        · rw [if_pos h2] at h
          norm_num at h
        · rw [if_neg h2] at h0
          exact h0 rfl
    · rintro (h | ⟨heq, -⟩)
      · rw [strCmp, if_pos h]
        norm_num
      · exact absurd heq hne

theorem rowLe_total (a b : IndexRow) : rowCmp a b ≤ 0 ∨ rowCmp b a ≤ 0 := by
  rw [rowLe_iff, rowLe_iff]
  by_cases h1 : jsStrLt (strOr a.domain) (strOr b.domain) = true
  · exact Or.inl (Or.inl h1)
  · by_cases h2 : jsStrLt (strOr b.domain) (strOr a.domain) = true
    · exact Or.inr (Or.inl h2)
    · simp only [Bool.not_eq_true] at h1 h2
      have heq : strOr a.domain = strOr b.domain := jsStrLt_connex _ _ h1 h2
      by_cases h3 : jsStrLt (strOr b.id) (strOr a.id) = true
      · exact Or.inr (Or.inr ⟨heq.symm, jsStrLt_asymm _ _ h3⟩)
      · simp only [Bool.not_eq_true] at h3
        exact Or.inl (Or.inr ⟨heq, h3⟩)

theorem rowLe_trans (a b c : IndexRow) (h1 : rowCmp a b ≤ 0) (h2 : rowCmp b c ≤ 0) :
    rowCmp a c ≤ 0 := by
  rw [rowLe_iff] at h1 h2 ⊢
  rcases h1 with h1 | ⟨h1e, h1i⟩
  · rcases h2 with h2 | ⟨h2e, _⟩
    · exact Or.inl (jsStrLt_trans _ _ _ h1 h2)
    · exact Or.inl (h2e ▸ h1)
  · rcases h2 with h2 | ⟨h2e, h2i⟩
    · exact Or.inl (h1e ▸ h2)
    · refine Or.inr ⟨h1e.trans h2e, ?_⟩
      by_cases h3 : jsStrLt (strOr c.id) (strOr a.id) = true
      · exfalso
        by_cases h4 : jsStrLt (strOr a.id) (strOr b.id) = true
        · have h6 := jsStrLt_trans _ _ _ h3 h4
          rw [h2i] at h6
          simp at h6
        · simp only [Bool.not_eq_true] at h4
          have hab : strOr a.id = strOr b.id := jsStrLt_connex _ _ h4 h1i
          rw [hab, h2i] at h3
          simp at h3
      · simp only [Bool.not_eq_true] at h3
        exact h3

/-- C9: `index` is a pure, deterministic transformation — its rows are a
permutation of one `rowOf` row per record (fields domain/id/title/type/
status/relativePath), pairwise sorted by `(domain, id)` lexicographically,
and running `index` twice on an unchanged corpus leaves the written file
byte-identical (the second run reads the same corpus, as the output path is
outside the scanned tree). -/
theorem c9_index_pure_sorted :
    (∀ docs : List PatternDoc, (indexRows docs).Perm (docs.map rowOf)) ∧
    (∀ docs : List PatternDoc, (indexRows docs).Pairwise (fun a b =>
      jsStrLt (strOr a.domain) (strOr b.domain) = true ∨
        (strOr a.domain = strOr b.domain ∧ jsStrLt (strOr b.id) (strOr a.id) = false))) ∧
    (∀ docs : List PatternDoc, (indexRows docs).length = docs.length) ∧
    (∀ s : FsState, runIndex (runIndex s) = runIndex s) := by
  refine ⟨?_, ?_, ?_, ?_⟩
  · intro docs
    exact List.perm_insertionSort _ _
  · intro docs
    haveI : IsTotal IndexRow (fun a b => rowCmp a b ≤ 0) := ⟨rowLe_total⟩
    haveI : IsTrans IndexRow (fun a b => rowCmp a b ≤ 0) := ⟨rowLe_trans⟩
    have hs := List.sorted_insertionSort (fun a b => rowCmp a b ≤ 0) (docs.map rowOf)
    exact List.Pairwise.imp (fun h => (rowLe_iff _ _).mp h) hs
  · intro docs
    rw [indexRows]
    rw [(List.perm_insertionSort (fun a b => rowCmp a b ≤ 0) (docs.map rowOf)).length_eq]
    exact List.length_map _ _
  · intro s
    rfl

/-! ### Scan statelessness (C10) -/

theorem testR_stateless (content : String) (r : CRule) (h : statefulFlags r.flags = false) :
    testR content r = ((r.step content 0).isSome, r) := by
  rw [testR, if_neg (by rw [h]; simp)]

theorem scanRules_stateless (content : String) :
    ∀ rules : List CRule, (∀ r ∈ rules, statefulFlags r.flags = false) →
      (scanRules content rules).2 = rules := by
  intro rules
  induction rules with
  | nil =>
    intro _
    rfl
  | cons r rs ih =>
    intro h
    rw [scanRules, testR_stateless content r (h r (List.mem_cons_self r rs))]
    simp only []
    rw [ih (fun x hx => h x (List.mem_cons_of_mem r hx))]

theorem scanS_stateless (content : String) (c : CompiledSan)
    (hb : ∀ r ∈ c.block, statefulFlags r.flags = false)
    (hw : ∀ r ∈ c.warn, statefulFlags r.flags = false) :
    (scanS content c).2 = c := by
  rw [scanS]
  simp only []
  rw [scanRules_stateless content c.block hb, scanRules_stateless content c.warn hw]

theorem scanDocs_stateless (c : CompiledSan)
    (hb : ∀ r ∈ c.block, statefulFlags r.flags = false)
    (hw : ∀ r ∈ c.warn, statefulFlags r.flags = false) :
    ∀ docs : List String, scanDocs docs c = c := by
  intro docs
  induction docs with
  | nil => rfl
  | cons d ds ih =>
    rw [scanDocs, List.foldl_cons, scanS_stateless d c hb hw]
    exact ih

/-- C10: with a compiled rule set whose flags carry no `g`/`y` (the rule
file specifies none), `scan` is a pure function of the document text: the
regex objects' state is unchanged by a scan, so scanning any earlier
documents in the run cannot change the result for a later one. -/
theorem c10_scan_stateless (block warn : List SanRuleSpec)
    (h : ∀ r ∈ block ++ warn, statefulFlags (r.flags.getD "") = false)
    (docs : List String) (text : String) :
    (scanS text (scanDocs docs (compileSan block warn))).1 =
      (scanS text (compileSan block warn)).1 ∧
    (scanS text (compileSan block warn)).2 = compileSan block warn := by
  have hb : ∀ r ∈ (compileSan block warn).block, statefulFlags r.flags = false := by
    intro r hr
    rcases List.mem_map.mp hr with ⟨sp, hsp, heq⟩
    rw [← heq]
    exact h sp (List.mem_append_left _ hsp)
  have hw : ∀ r ∈ (compileSan block warn).warn, statefulFlags r.flags = false := by
    intro r hr
    rcases List.mem_map.mp hr with ⟨sp, hsp, heq⟩
    rw [← heq]
    exact h sp (List.mem_append_right _ hsp)
  refine ⟨?_, scanS_stateless text _ hb hw⟩
  rw [scanDocs_stateless _ hb hw docs]

/-- C10 witness: a two-rule flagless set scanned after an earlier
document gives the same result as a fresh scan. -/
theorem c10_witness :
    (scanS "BEGIN token END" (scanDocs ["earlier doc"] (compileSan c10BlockRules c10WarnRules))).1 =
      (scanS "BEGIN token END" (compileSan c10BlockRules c10WarnRules)).1 :=
  (c10_scan_stateless c10BlockRules c10WarnRules
    (by
      intro r hr
      rcases List.mem_append.mp hr with h1 | h1
      · rcases List.mem_singleton.mp h1 with rfl
        rfl
      · rcases List.mem_singleton.mp h1 with rfl
        rfl)
    ["earlier doc"] "BEGIN token END").1

/-! ### Staleness claims -/

theorem foldl_const {α β : Type} (step : List α → β → List α)
    (hstep : ∀ acc x, step acc x = acc) :
    ∀ (l : List β) (acc : List α), l.foldl step acc = acc := by
  intro l
  induction l with
  | nil =>
    intro acc
    rfl
  | cons x xs ih =>
    intro acc
    rw [List.foldl_cons, hstep acc x, ih acc]

/-- The degraded auditor's scan loop never accumulates anything: the
front-matter helper yields `""` for every file, so every iteration takes
the `continue`. -/
theorem shOverdue_nil : ∀ (files : List (String × String)) (today : String),
    shOverdue files today = [] := by
  intro files today
  rw [shOverdue]
  exact foldl_const _ (fun _ _ => rfl) files []

/-- C1 (code bug): on the spec's own scenario file the two front-matter
parser variants disagree on every staleness field — gray-matter yields
`id`/`status` strings and a `Date` for `review_by`, while the degraded
parser (whose awk helper is rejected by awk: `in` is a reserved word)
extracts nothing — and, contrary to the claim, NEITHER auditor places the
record in its Overdue list: the shell auditor scans nothing, and the full
engine compares the `Date` against today's ISO string, which is always
false. -/
theorem c1_parsers_disagree_on_staleness_scenario :
    jsGet (matterParse scenarioFileC1) "id" = some (YamlValue.vStr "foo") ∧
    jsGet (matterParse scenarioFileC1) "status" = some (YamlValue.vStr "validated") ∧
    jsGet (matterParse scenarioFileC1) "review_by" = some (YamlValue.vDate 2020 1 1) ∧
    sh_front_matter scenarioFileC1 = "" ∧
    sh_trim (sh_fm_scalar "id" (sh_front_matter scenarioFileC1)) = "" ∧
    sh_trim (sh_fm_scalar "status" (sh_front_matter scenarioFileC1)) = "" ∧
    sh_trim (sh_fm_scalar "review_by" (sh_front_matter scenarioFileC1)) = "" ∧
    mjsOverdue [("patterns/foo.md", scenarioFileC1)] "2026-10-11" = [] ∧
    (∀ (files : List (String × String)) (today : String), shOverdue files today = []) :=
  ⟨rfl, rfl, rfl, rfl, rfl, rfl, rfl, rfl, shOverdue_nil⟩

/-- C4 (code bug): with the review date written unquoted — as in every
pattern file of this repository — a validated record one day overdue is
NOT in the full engine's Overdue list (js-yaml parses the scalar into a
`Date`, and `Date < string` is always false); the string comparison only
behaves as the claim states when the date is quoted. -/
theorem c4_overdue_date_comparison_broken :
    jsGet (matterParse c4UnquotedYesterday) "status" = some (YamlValue.vStr "validated") ∧
    jsGet (matterParse c4UnquotedYesterday) "review_by" = some (YamlValue.vDate 2026 10 10) ∧
    mjsOverdue [("patterns/foo.md", c4UnquotedYesterday)] "2026-10-11" = [] ∧
    mjsOverdue [("patterns/foo.md", c4QuotedYesterday)] "2026-10-11" =
      [⟨some (YamlValue.vStr "foo"), some (YamlValue.vStr "2026-10-10"), "patterns/foo.md"⟩] ∧
    mjsOverdue [("patterns/foo.md", c4QuotedTomorrow)] "2026-10-11" = [] :=
  ⟨rfl, rfl, rfl, rfl, rfl⟩

/-- C2 counterexample: a validated record with the malformed review date
`2020-1-1` is NOT silently excluded from the Overdue check — the full
engine compares the malformed string lexicographically with today and
places the record in Overdue. -/
theorem c2_malformed_date_is_compared :
    isoParse "2020-1-1" = none ∧
    jsGet (matterParse c2MalformedBelow) "review_by" = some (YamlValue.vStr "2020-1-1") ∧
    mjsOverdue [("patterns/foo.md", c2MalformedBelow)] "2026-10-11" =
      [⟨some (YamlValue.vStr "foo"), some (YamlValue.vStr "2020-1-1"), "patterns/foo.md"⟩] :=
  ⟨rfl, rfl, rfl⟩

/-- C2 amended: the degraded auditor's date helpers do treat a malformed
date as absent without crashing (`date_lt` is false and `days_since`
yields nothing whenever the date does not parse); the full engine does
not parse dates at all — it compares the raw `review_by` value with
today's ISO string, so a malformed string below today lexicographically
lands a validated record in Overdue and one above does not, again without
crashing. -/
theorem c2_amended_malformed_date_handling :
    (∀ d t : String, isoParse d = none → sh_date_lt d t = false) ∧
    (∀ (d : String) (today : Nat × Nat × Nat), isoParse d = none →
      sh_days_since d today = none) ∧
    isoParse "2020-1-1" = none ∧ isoParse "9999-99" = none ∧
    mjsOverdue [("patterns/foo.md", c2MalformedBelow)] "2026-10-11" ≠ [] ∧
    mjsOverdue [("patterns/foo.md", c2MalformedAbove)] "2026-10-11" = [] := by
  refine ⟨?_, ?_, rfl, rfl, ?_, rfl⟩
  · intro d t h
    rw [sh_date_lt, h]
  · intro d today h
    rw [sh_days_since, h]
    rfl
  · intro hc
    have : ([] : List OverdueEntry).length = 1 := by
      rw [← hc]
      rfl
    simp at this

/-- C2 witness: the amended statement applied to the malformed date
`2020-1-1`. -/
theorem c2_amended_witness :
    sh_date_lt "2020-1-1" "2026-10-11" = false ∧
      sh_days_since "2020-1-1" (2026, 10, 11) = none :=
  ⟨c2_amended_malformed_date_handling.1 "2020-1-1" "2026-10-11" rfl,
    c2_amended_malformed_date_handling.2.1 "2020-1-1" (2026, 10, 11) rfl⟩

end HaloProof
